import Mathlib

/-!
Verification of the inside-ideo PDF extraction / enrichment pipeline.

The definitions below are a shallow embedding of the Python backend
(`backend/extract.py`, `backend/openai_api.py`, `backend/ocr.py`):

* Python strings are modelled as lists of characters (`PyStr`), matching
  Python's code-point view of `str`.
* Python float arithmetic on page/image areas is modelled by exact rationals.
* Raw image byte strings are modelled by natural numbers, and `hashlib.md5`
  by the identity on those numbers (i.e. an injective content hash); the
  code only ever compares hashes for equality.
* External collaborators (the OpenAI chat endpoint, the `re` match lists for
  the three `findall` patterns of strategy 1, `json.loads`, the per-image
  description call) are parameters of the embedded functions; an exception
  raised by a collaborator or by the embedded code itself is modelled with
  `Option`/`Except`.
-/

namespace InsideIdeo

/-- Python `str`, as a sequence of code points. -/
abbrev PyStr := List Char

/-! ## `extract.py`: `PDFExtractor._extract_meaningful_images`

`_extract_meaningful_images` (lines 78-165) filters the embedded images of
one page: duplicate check against the page-local `image_hashes` set, absolute
minimum-dimension check (`min_size = 600`), relative-area check
(`rel_size < 0.15`), a per-page cap (`max_images_per_page = 3`, loop `break`)
and a per-document cap checked once per page (lines 88-91).
-/

/-- `min_size = 600` (line 85). -/
def min_size : ℕ := 600

/-- `max_images_per_page = 3` (line 100). -/
def max_images_per_page : ℕ := 3

/-- One entry of `page.get_images(full=True)` as consumed by the loop:
`content = none` models a falsy `base_image` from `extract_image` (line 112),
otherwise `content = some b` is the raw image byte string `b` (a number; md5
is modelled as injective).  `dims = none` models `PIL.Image.open` raising on
those bytes, which the `except` at line 164 isolates to this one candidate. -/
structure Candidate where
  content : Option ℕ
  dims : Option (ℕ × ℕ)
deriving DecidableEq, Repr

/-- One element of `result["images"]` (lines 153-159), keeping the fields the
claims are about: `page` is `page_idx + 1`, `width`/`height` the decoded
dimensions, `content` the raw bytes of the stored image. -/
structure Asset where
  page : ℕ
  width : ℕ
  height : ℕ
  content : ℕ
deriving DecidableEq, Repr

/-- The two size tests of `_extract_meaningful_images`: line 132 rejects when
`img_width < min_size or img_height < min_size`; lines 137-140 reject when
`(img_width * img_height) / (page_width * page_height) < 0.15`.  The float
quotient is modelled by the exact rational quotient, `pageArea` standing for
`page_width * page_height`. -/
def passes_size_checks (w h : ℕ) (pageArea : ℚ) : Bool :=
  !(decide (w < min_size) || decide (h < min_size)) &&
    !(decide ((((w * h : ℕ) : ℚ) / pageArea) < 15 / 100))

/-- The candidate loop of `_extract_meaningful_images` (lines 103-165),
threading the page-local dedup set `image_hashes` (`hashes`), the page-local
counter `images_from_this_page` (`cnt`) and the run-wide accepted list
`result["images"]` (`images_list`).  Order of operations as in the code:
`break` on the per-page cap at the top of each iteration, falsy `base_image`
skip, duplicate check, hash added immediately, dimension decoding (whose
failure is caught and skips only this candidate, the hash staying recorded),
then the two size checks. -/
def process_candidates (page : ℕ) (pageArea : ℚ) (cap : ℕ) :
    List Candidate → List ℕ → ℕ → List Asset → List Asset
  | [], _, _, images_list => images_list
  | c :: rest, hashes, cnt, images_list =>
    if cap ≤ cnt then images_list
    else
      match c.content with
      | none => process_candidates page pageArea cap rest hashes cnt images_list
      | some b =>
        if b ∈ hashes then
          process_candidates page pageArea cap rest hashes cnt images_list
        else
          match c.dims with
          | none => process_candidates page pageArea cap rest (b :: hashes) cnt images_list
          | some (w, h) =>
            if passes_size_checks w h pageArea then
              process_candidates page pageArea cap rest (b :: hashes) (cnt + 1)
                (images_list ++ [⟨page, w, h, b⟩])
            else
              process_candidates page pageArea cap rest (b :: hashes) cnt images_list

/-- A page, as far as image filtering is concerned: `pageArea` models
`page.rect.width * page.rect.height` (line 84) and `candidates` the list
returned by `page.get_images(full=True)` (line 97). -/
structure Page where
  pageArea : ℚ
  candidates : List Candidate
deriving DecidableEq, Repr

/-- `_extract_meaningful_images` for one page: a fresh `image_hashes` set and a
fresh `images_from_this_page` counter per call (lines 81, 101), and the
per-document check of lines 88-91, which returns without touching the page
when `len(images_list) >= max_images_per_doc`. -/
def extract_meaningful_images (maxDoc : ℕ) (pageIdx1 : ℕ) (p : Page)
    (images_list : List Asset) : List Asset :=
  if maxDoc ≤ images_list.length then images_list
  else process_candidates pageIdx1 p.pageArea max_images_per_page p.candidates [] 0 images_list

/-- The page loop of `extract_content` (lines 59-68) restricted to image
extraction: pages are processed in order, every page appending to the one
run-wide `result["images"]` list; `pageIdx0` is the 0-based `page_idx`, the
stored page number is `page_idx + 1`. -/
def extract_images_loop (maxDoc : ℕ) : ℕ → List Page → List Asset → List Asset
  | _, [], images_list => images_list
  | pageIdx0, p :: rest, images_list =>
    extract_images_loop maxDoc (pageIdx0 + 1) rest
      (extract_meaningful_images maxDoc (pageIdx0 + 1) p images_list)

/-- `result["images"]` after `extract_content` has run over all pages of one
document (`max_images_per_doc` is read from the `MAX_IMAGES` environment
variable, default 60; it is a parameter here). -/
def extract_content_images (maxDoc : ℕ) (pages : List Page) : List Asset :=
  extract_images_loop maxDoc 0 pages []

/-- Spec-side companion for the per-page quota claim: the page's qualifying
candidates - those passing the duplicate and size checks - with no quota
applied.  Same checks, same order, same hash-set evolution as
`process_candidates`, but no `cap`. -/
def qualifying_assets (page : ℕ) (pageArea : ℚ) :
    List Candidate → List ℕ → List Asset
  | [], _ => []
  | c :: rest, hashes =>
    match c.content with
    | none => qualifying_assets page pageArea rest hashes
    | some b =>
      if b ∈ hashes then qualifying_assets page pageArea rest hashes
      else
        match c.dims with
        | none => qualifying_assets page pageArea rest (b :: hashes)
        | some (w, h) =>
          if passes_size_checks w h pageArea then
            ⟨page, w, h, b⟩ :: qualifying_assets page pageArea rest (b :: hashes)
          else
            qualifying_assets page pageArea rest (b :: hashes)

/-! ### Structure of one page's accepted assets -/

/-- The candidate loop equals: append to `images_list` the first `cap - cnt`
qualifying assets (the per-page `break` truncates the quota-free list). -/
theorem process_candidates_eq_take (page : ℕ) (A : ℚ) (cap : ℕ) :
    ∀ (cands : List Candidate) (hashes : List ℕ) (cnt : ℕ) (acc : List Asset),
      process_candidates page A cap cands hashes cnt acc =
        acc ++ (qualifying_assets page A cands hashes).take (cap - cnt) := by
  intro cands
  induction cands with
  | nil => intro hashes cnt acc; simp [process_candidates, qualifying_assets]
  | cons c rest ih =>
    intro hashes cnt acc
    obtain ⟨cb, cd⟩ := c
    by_cases hcap : cap ≤ cnt
    · simp [process_candidates, hcap, Nat.sub_eq_zero_of_le hcap]
    · cases cb with
      | none => simp [process_candidates, qualifying_assets, hcap, ih]
      | some b =>
        by_cases hb : b ∈ hashes
        · simp [process_candidates, qualifying_assets, hcap, hb, ih]
        · cases cd with
          | none => simp [process_candidates, qualifying_assets, hcap, hb, ih]
          | some wh =>
            obtain ⟨w, h⟩ := wh
            by_cases hs : passes_size_checks w h A
            · simp only [process_candidates, qualifying_assets, if_neg hcap, if_neg hb, hs,
                if_true]
              rw [ih]
              have hcc : cap - cnt = (cap - (cnt + 1)) + 1 := by omega
              rw [hcc, List.take_succ_cons]
              simp
            · simp [process_candidates, qualifying_assets, hcap, hb, hs, ih]

/-- Invariants of the quota-free qualifying list: accepted contents are
pairwise distinct, every asset carries this page's number, and no accepted
content was already in the dedup set. -/
theorem qualifying_assets_spec (page : ℕ) (A : ℚ) :
    ∀ (cands : List Candidate) (hashes : List ℕ),
      ((qualifying_assets page A cands hashes).map Asset.content).Nodup
      ∧ ∀ a ∈ qualifying_assets page A cands hashes, a.page = page ∧ a.content ∉ hashes := by
  intro cands
  induction cands with
  | nil => intro hashes; simp [qualifying_assets]
  | cons c rest ih =>
    intro hashes
    obtain ⟨cb, cd⟩ := c
    cases cb with
    | none => simpa [qualifying_assets] using ih hashes
    | some b =>
      by_cases hb : b ∈ hashes
      · simpa [qualifying_assets, hb] using ih hashes
      · cases cd with
        | none =>
          have hq : qualifying_assets page A (⟨some b, none⟩ :: rest) hashes =
              qualifying_assets page A rest (b :: hashes) := by
            simp [qualifying_assets, hb]
          rw [hq]
          refine ⟨(ih (b :: hashes)).1, fun a ha => ?_⟩
          have := (ih (b :: hashes)).2 a ha
          exact ⟨this.1, fun hmem => this.2 (by simp [hmem])⟩
        | some wh =>
          obtain ⟨w, h⟩ := wh
          by_cases hs : passes_size_checks w h A
          · simp only [qualifying_assets, if_neg hb, hs, if_true]
            obtain ⟨hnd, hmem⟩ := ih (b :: hashes)
            constructor
            · simp only [List.map_cons, List.nodup_cons]
              refine ⟨fun hin => ?_, hnd⟩
              obtain ⟨a, ha, hac⟩ := List.mem_map.mp hin
              exact (hmem a ha).2 (by simp [hac])
            · intro a ha
              rcases List.mem_cons.mp ha with h1 | h1
              · subst h1; exact ⟨rfl, hb⟩
              · have := hmem a h1
                exact ⟨this.1, fun hh => this.2 (by simp [hh])⟩
          · simp only [qualifying_assets, if_neg hb, hs, if_false]
            refine ⟨(ih (b :: hashes)).1, fun a ha => ?_⟩
            have := (ih (b :: hashes)).2 a ha
            exact ⟨this.1, fun hmem => this.2 (by simp [hmem])⟩

/-- No two accepted assets that originate from the same page share a content
hash (the dedup set lives for exactly one page). -/
def same_page_distinct (l : List Asset) : Prop :=
  l.Pairwise fun a b => a.page = b.page → a.content ≠ b.content

/-- The page loop keeps `same_page_distinct`, as long as every asset already
accepted comes from an earlier page. -/
theorem extract_images_loop_pairwise (maxDoc : ℕ) :
    ∀ (pages : List Page) (i : ℕ) (acc : List Asset),
      same_page_distinct acc → (∀ a ∈ acc, a.page ≤ i) →
      same_page_distinct (extract_images_loop maxDoc i pages acc) := by
  intro pages
  induction pages with
  | nil => intro i acc hp _; simpa [extract_images_loop] using hp
  | cons p rest ih =>
    intro i acc hp hbound
    rw [extract_images_loop]
    by_cases hskip : maxDoc ≤ acc.length
    · have heq : extract_meaningful_images maxDoc (i + 1) p acc = acc := by
        simp [extract_meaningful_images, hskip]
      rw [heq]
      exact ih (i + 1) acc hp fun a ha => Nat.le_succ_of_le (hbound a ha)
    · have hrun : extract_meaningful_images maxDoc (i + 1) p acc =
          acc ++ (qualifying_assets (i + 1) p.pageArea p.candidates []).take
            (max_images_per_page - 0) := by
        rw [extract_meaningful_images, if_neg hskip, process_candidates_eq_take]
      set B := (qualifying_assets (i + 1) p.pageArea p.candidates []).take
        (max_images_per_page - 0) with hB
      have hBsub : ∀ a ∈ B, a ∈ qualifying_assets (i + 1) p.pageArea p.candidates [] :=
        fun a ha => List.mem_of_mem_take ha
      have hBpage : ∀ a ∈ B, a.page = i + 1 := fun a ha =>
        ((qualifying_assets_spec (i + 1) p.pageArea p.candidates []).2 a (hBsub a ha)).1
      have hBnd : (B.map Asset.content).Nodup := by
        rw [hB, List.map_take]
        exact (qualifying_assets_spec (i + 1) p.pageArea p.candidates []).1.sublist
          (List.take_sublist _ _)
      refine ih (i + 1) _ ?_ ?_
      · rw [hrun]
        rw [same_page_distinct, List.pairwise_append]
        refine ⟨hp, ?_, ?_⟩
        · have hpw : B.Pairwise fun a b => a.content ≠ b.content := by
            have h' : (B.map Asset.content).Pairwise Ne := hBnd
            exact List.pairwise_map.mp h'
          refine List.Pairwise.imp ?_ hpw
          intro a b hab hpage
          exact hab
        · intro a ha b hb hpage
          have h1 : a.page ≤ i := hbound a ha
          have h2 : b.page = i + 1 := hBpage b hb
          omega
      · intro a ha
        rw [hrun] at ha
        rcases List.mem_append.mp ha with h1 | h1
        · exact Nat.le_succ_of_le (hbound a h1)
        · exact le_of_eq (hBpage a h1)

/-- The page loop never grows the accepted list past
`maxDoc + (max_images_per_page - 1)`. -/
theorem extract_images_loop_length_le (maxDoc : ℕ) :
    ∀ (pages : List Page) (i : ℕ) (acc : List Asset),
      acc.length ≤ maxDoc + (max_images_per_page - 1) →
      (extract_images_loop maxDoc i pages acc).length ≤
        maxDoc + (max_images_per_page - 1) := by
  intro pages
  induction pages with
  | nil => intro i acc h; simp only [extract_images_loop]; exact h
  | cons p rest ih =>
    intro i acc h
    rw [extract_images_loop]
    refine ih (i + 1) _ ?_
    by_cases hskip : maxDoc ≤ acc.length
    · rw [extract_meaningful_images, if_pos hskip]; exact h
    · rw [extract_meaningful_images, if_neg hskip, process_candidates_eq_take]
      have h1 : ((qualifying_assets (i + 1) p.pageArea p.candidates []).take
          (max_images_per_page - 0)).length ≤ max_images_per_page := by
        simp
      have h2 : acc.length < maxDoc := lt_of_not_le hskip
      simp only [List.length_append]
      have h3 : (0 : ℕ) < max_images_per_page := by decide
      omega

/-! ### Claim theorems about the asset filter -/

/-- One page holding a single qualifying 600x600 candidate with byte content 7;
its area is the whole page, so `rel_size = 1`. -/
def dup_demo_page : Page := ⟨(360000 : ℚ), [⟨some 7, some (600, 600)⟩]⟩

/-- C1 fails as stated: `image_hashes` is created afresh inside
`_extract_meaningful_images`, i.e. per page, so feeding the same image bytes
on two different pages of one run yields two accepted assets sharing content
hash 7 - the second occurrence is not rejected as a duplicate. -/
theorem dedup_not_run_scoped_counterexample :
    extract_content_images 60 [dup_demo_page, dup_demo_page] =
      [⟨1, 600, 600, 7⟩, ⟨2, 600, 600, 7⟩]
    ∧ ¬ ((extract_content_images 60 [dup_demo_page, dup_demo_page]).map
          Asset.content).Nodup := by
  have heval : extract_content_images 60 [dup_demo_page, dup_demo_page] =
      [⟨1, 600, 600, 7⟩, ⟨2, 600, 600, 7⟩] := by
    norm_num [extract_content_images, extract_images_loop, extract_meaningful_images,
      process_candidates, passes_size_checks, dup_demo_page, min_size, max_images_per_page]
  refine ⟨heval, ?_⟩
  rw [heval]
  simp

/-- C1 (amended): the dedup set is scoped to a single page, not to the run: in
every run, no two accepted assets that originate from the same page share a
content hash; feeding the same image bytes twice into the same page yields at
most one accepted asset from that page, but the same bytes on two different
pages are accepted twice. -/
theorem dedup_page_scoped (maxDoc : ℕ) (pages : List Page) :
    same_page_distinct (extract_content_images maxDoc pages) :=
  extract_images_loop_pairwise maxDoc pages 0 []
    (by simp [same_page_distinct]) (by simp)

/-- One page holding two distinct qualifying 600x600 candidates. -/
def quota_demo_page : Page :=
  ⟨(360000 : ℚ), [⟨some 1, some (600, 600)⟩, ⟨some 2, some (600, 600)⟩]⟩

/-- C5 fails as stated: the per-document quota (`MAX_IMAGES`) is checked only
once per page, at the top of `_extract_meaningful_images`, never between
candidates of the same page - with a quota of 1 a single page with two
qualifying candidates yields 2 accepted assets, exceeding the configured
maximum. -/
theorem per_doc_quota_exceeded_counterexample :
    (extract_content_images 1 [quota_demo_page]).length = 2
    ∧ ¬ ((extract_content_images 1 [quota_demo_page]).length ≤ 1) := by
  have heval : extract_content_images 1 [quota_demo_page] =
      [⟨1, 600, 600, 1⟩, ⟨1, 600, 600, 2⟩] := by
    norm_num [extract_content_images, extract_images_loop, extract_meaningful_images,
      process_candidates, passes_size_checks, quota_demo_page, min_size, max_images_per_page]
  rw [heval]
  simp

/-- C5 (amended): once the run has accepted at least the configured
per-document maximum, extraction for every subsequent page is skipped without
per-candidate computation; but because the check has page granularity, the
page that crosses the quota may still accept up to `max_images_per_page`
candidates, so the run total is only bounded by
`maxDoc + (max_images_per_page - 1)`, not by `maxDoc`. -/
theorem per_doc_quota_page_granularity (maxDoc : ℕ) (pages : List Page) :
    (extract_content_images maxDoc pages).length ≤ maxDoc + (max_images_per_page - 1)
    ∧ ∀ (i : ℕ) (p : Page) (acc : List Asset),
        maxDoc ≤ acc.length → extract_meaningful_images maxDoc i p acc = acc := by
  constructor
  · exact extract_images_loop_length_le maxDoc pages 0 [] (by simp)
  · intro i p acc h
    rw [extract_meaningful_images, if_pos h]

/-- Witness for `per_doc_quota_page_granularity` at a concrete run. -/
theorem per_doc_quota_page_granularity_witness :
    ((extract_content_images 1 [quota_demo_page]).length ≤ 1 + (max_images_per_page - 1))
    ∧ extract_meaningful_images 1 3 quota_demo_page [⟨1, 600, 600, 5⟩] =
        [⟨1, 600, 600, 5⟩] :=
  ⟨(per_doc_quota_page_granularity 1 [quota_demo_page]).1,
   (per_doc_quota_page_granularity 1 [quota_demo_page]).2 3 quota_demo_page
     [⟨1, 600, 600, 5⟩] (by decide)⟩

/-- C6: with a per-page cap of `k`, a page whose qualifying candidates (those
passing the duplicate and size checks, quota-free) number more than `k` yields
exactly the first `k` of them, in candidate order; later candidates are
dropped once the quota is reached. -/
theorem per_page_quota_first_k (page : ℕ) (A : ℚ) (k : ℕ) (cands : List Candidate)
    (hk : k < (qualifying_assets page A cands []).length) :
    process_candidates page A k cands [] 0 [] =
      (qualifying_assets page A cands []).take k
    ∧ (process_candidates page A k cands [] 0 []).length = k := by
  have h := process_candidates_eq_take page A k cands [] 0 []
  constructor
  · simpa using h
  · rw [h]
    simp only [List.nil_append, List.length_take]
    omega

/-- Four distinct qualifying candidates on one page. -/
def page_quota_demo_cands : List Candidate :=
  [⟨some 1, some (600, 600)⟩, ⟨some 2, some (600, 600)⟩,
   ⟨some 3, some (600, 600)⟩, ⟨some 4, some (600, 600)⟩]

/-- Witness for `per_page_quota_first_k`: a page with 4 qualifying candidates
and the code's cap `max_images_per_page = 3` accepts exactly the first 3. -/
theorem per_page_quota_first_k_witness :
    (3 < (qualifying_assets 1 360000 page_quota_demo_cands []).length)
    ∧ (process_candidates 1 360000 3 page_quota_demo_cands [] 0 [] =
        (qualifying_assets 1 360000 page_quota_demo_cands []).take 3
      ∧ (process_candidates 1 360000 3 page_quota_demo_cands [] 0 []).length = 3) := by
  have hq : qualifying_assets 1 360000 page_quota_demo_cands [] =
      [⟨1, 600, 600, 1⟩, ⟨1, 600, 600, 2⟩, ⟨1, 600, 600, 3⟩, ⟨1, 600, 600, 4⟩] := by
    norm_num [qualifying_assets, passes_size_checks, page_quota_demo_cands, min_size]
  exact ⟨by rw [hq]; simp,
    per_page_quota_first_k 1 360000 3 page_quota_demo_cands (by rw [hq]; simp)⟩

/-- C7: the filter's lower bounds are inclusive.  On a page of positive area,
the size checks accept exactly the candidates with `min_size ≤ width`,
`min_size ≤ height` and `0.15 * pageArea ≤ width * height` (the configured
minimum area of the code's area-based check is the relative threshold
`0.15 * pageArea`); a candidate at exactly these minimums passes, one unit
below any of them fails, and any candidate whose area is below the minimum
area is rejected.  The second conjunct ties the predicate to the filter: a
fresh single-candidate page accepts iff the size checks pass. -/
theorem size_thresholds_inclusive (pageArea : ℚ) (hA : 0 < pageArea) :
    (∀ w h : ℕ, passes_size_checks w h pageArea = true ↔
        min_size ≤ w ∧ min_size ≤ h ∧ 15 / 100 * pageArea ≤ ((w * h : ℕ) : ℚ))
    ∧ ∀ (w h b page : ℕ),
        process_candidates page pageArea max_images_per_page
            [⟨some b, some (w, h)⟩] [] 0 [] =
          if passes_size_checks w h pageArea then [⟨page, w, h, b⟩] else [] := by
  constructor
  · intro w h
    simp only [passes_size_checks, Bool.and_eq_true, Bool.not_eq_true',
      Bool.or_eq_false_iff, decide_eq_false_iff_not, not_lt, min_size]
    rw [le_div_iff₀ hA]
    tauto
  · intro w h b page
    by_cases hs : passes_size_checks w h pageArea
    · simp [process_candidates, max_images_per_page, hs]
    · simp [process_candidates, max_images_per_page, hs]

/-- Witness for `size_thresholds_inclusive` on a page of area 2400000, where
the minimum area `0.15 * 2400000 = 360000` is met exactly by a 600x600
candidate. -/
theorem size_thresholds_inclusive_witness :
    (0 : ℚ) < 2400000
    ∧ ((∀ w h : ℕ, passes_size_checks w h 2400000 = true ↔
          min_size ≤ w ∧ min_size ≤ h ∧ 15 / 100 * 2400000 ≤ ((w * h : ℕ) : ℚ))
      ∧ ∀ (w h b page : ℕ),
          process_candidates page 2400000 max_images_per_page
              [⟨some b, some (w, h)⟩] [] 0 [] =
            if passes_size_checks w h 2400000 then [⟨page, w, h, b⟩] else []) :=
  ⟨by norm_num, size_thresholds_inclusive 2400000 (by norm_num)⟩

/-! ## `openai_api.py`: `_parse_numbered_descriptions` (lines 271-349)

The response text is free-form; the parser tries four strategies in order.
Strategy 1 feeds the results of `re.findall` for three numbered-line patterns
through a slot-filling loop; the match lists delivered by the external regex
engine are a parameter (`regex_results`, one list per pattern, in pattern
order).  Strategies 2 and 3 and the final fallback are implemented directly.
`none` models an exception escaping the function - only possible in the final
fallback, whose `total_chars // expected_count` raises `ZeroDivisionError`
when `expected_count = 0`.
-/

/-- Python whitespace as tested by `str.strip` and the regex class `\s`,
restricted to its ASCII part (space, tab, newline, carriage return, vertical
tab, form feed). -/
def isPySpace (c : Char) : Bool :=
  c = ' ' || c = '\t' || c = '\n' || c = '\r' || c = Char.ofNat 11 || c = Char.ofNat 12

/-- Python `str.strip()`. -/
def pyStrip (s : PyStr) : PyStr :=
  ((s.dropWhile isPySpace).reverse.dropWhile isPySpace).reverse

/-- Strategy 1's slot-filling loop (lines 284-297): walk the
`(number, description)` matches in order, storing `desc.strip()` at slot
`number - 1`; an out-of-range number sets `has_all_numbers = False` and
breaks (`none`).  The `int()` of a `\d+` capture cannot raise, so the
`ValueError` arm of the code is dead. -/
def fillSlots (expected : ℕ) : List (ℕ × PyStr) → List (Option PyStr) →
    Option (List (Option PyStr))
  | [], slots => some slots
  | (num, desc) :: rest, slots =>
    if 1 ≤ num ∧ num ≤ expected then
      fillSlots expected rest (slots.set (num - 1) (some (pyStrip desc)))
    else none

/-- Strategy 1 for one pattern's match list (lines 280-301): skipped when the
pattern produced no matches; succeeds only when every slot 1..N was filled. -/
def strategy1_single (expected : ℕ) (ms : List (ℕ × PyStr)) :
    Option (List PyStr) :=
  if ms.isEmpty then none
  else
    match fillSlots expected ms (List.replicate expected none) with
    | none => none
    | some slots =>
      if slots.all Option.isSome then some (slots.map fun o => o.getD [])
      else none

/-- Strategy 1 over the three patterns, first success wins. -/
def strategy1 (expected : ℕ) : List (List (ℕ × PyStr)) → Option (List PyStr)
  | [] => none
  | ms :: rest =>
    match strategy1_single expected ms with
    | some r => some r
    | none => strategy1 expected rest

/-- `re.match(r'^\s*(\d+)[.:]', line)` of strategy 2 (line 311): optional
leading whitespace, one or more digits, then `.` or `:`.  Returns the length
of the matched prefix (whitespace and digit classes are disjoint from `[.:]`,
so the greedy match is deterministic). -/
def numbered_prefix_len (line : PyStr) : Option ℕ :=
  let ws := line.takeWhile isPySpace
  let rest := line.drop ws.length
  let ds := rest.takeWhile Char.isDigit
  if ds.isEmpty then none
  else
    match rest.drop ds.length with
    | c :: _ => if c = '.' || c = ':' then some (ws.length + ds.length + 1) else none
    | [] => none

/-- Strategy 2's line loop (lines 304-321): lines beginning with a number
open a new description (the previous one, stripped, is appended when
non-empty); other lines are accumulated with a space; the last description is
appended at the end when non-empty. -/
def strategy2_loop : List PyStr → PyStr → List PyStr → List PyStr
  | [], current, descs =>
    if current.isEmpty then descs else descs ++ [pyStrip current]
  | line :: rest, current, descs =>
    match numbered_prefix_len line with
    | some n =>
      strategy2_loop rest (pyStrip (line.drop n))
        (if current.isEmpty then descs else descs ++ [pyStrip current])
    | none => strategy2_loop rest (current ++ ' ' :: pyStrip line) descs

/-- Strategy 2 (lines 303-327): succeeds only when the loop produced exactly
`expected` descriptions; its `try/except` never fires. -/
def strategy2 (text : PyStr) (expected : ℕ) : Option (List PyStr) :=
  let descs := strategy2_loop (text.splitOn '\n') [] []
  if descs.length = expected then some descs else none

/-- One match of the separator regex `\n\s*\n` of `re.split` (line 331) at
the head of `l`: a newline, then greedily as much whitespace as possible,
backtracking until a final newline - i.e. the match extends to the last
newline of the maximal whitespace run following the first newline.  Returns
the remainder after the match. -/
def blank_sep_match (l : List Char) : Option (List Char) :=
  match l with
  | c :: rest =>
    if c = '\n' then
      let ws := rest.takeWhile isPySpace
      if '\n' ∈ ws then some (rest.drop (ws.length - ws.reverse.indexOf '\n'))
      else none
    else none
  | [] => none

/-- A separator match consumes at least one character. -/
theorem blank_sep_match_length : ∀ l r, blank_sep_match l = some r →
    r.length < l.length := by
  intro l r h
  match l with
  | [] => simp [blank_sep_match] at h
  | c :: rest =>
    simp only [blank_sep_match] at h
    split at h
    · split at h
      · injection h with h'
        subst h'
        simp only [List.length_drop, List.length_cons]
        omega
      · exact Option.noConfusion h
    · exact Option.noConfusion h

/-- `re.split(r'\n\s*\n', text)`: scan left to right, cutting at each
leftmost separator match and resuming after it. -/
def blank_split_loop (l : List Char) (cur : List Char) : List PyStr :=
  match hm : blank_sep_match l with
  | some rem => cur.reverse :: blank_split_loop rem []
  | none =>
    match l with
    | [] => [cur.reverse]
    | c :: rest => blank_split_loop rest (c :: cur)
termination_by l.length
decreasing_by
  · exact blank_sep_match_length _ _ hm
  · simp only [List.length_cons]; omega

/-- Strategy 3 (lines 330-338): split on blank lines, keep the stripped
non-empty paragraphs, succeed only on an exact count; its `try/except` never
fires. -/
def strategy3 (text : PyStr) (expected : ℕ) : Option (List PyStr) :=
  let parts := ((blank_split_loop text []).map pyStrip).filter fun p => !p.isEmpty
  if parts.length = expected then some parts else none

/-- The final fallback (lines 340-347): `chars_per_image = total_chars //
expected_count` (which raises `ZeroDivisionError` when `expected_count = 0`,
modelled as `none`), then the stripped slices
`text[i*chars_per_image:(i+1)*chars_per_image]` for `i` in `0..expected-1`. -/
def even_split (text : PyStr) (expected : ℕ) : Option (List PyStr) :=
  if expected = 0 then none
  else
    some ((List.range expected).map fun i =>
      pyStrip ((text.drop (i * (text.length / expected))).take (text.length / expected)))

/-- `_parse_numbered_descriptions(text, expected_count)`: the ordered
fallback chain. -/
def parse_numbered_descriptions (regex_results : List (List (ℕ × PyStr)))
    (text : PyStr) (expected : ℕ) : Option (List PyStr) :=
  match strategy1 expected regex_results with
  | some r => some r
  | none =>
    match strategy2 text expected with
    | some r => some r
    | none =>
      match strategy3 text expected with
      | some r => some r
      | none => even_split text expected

/-- Python `str.replace(pat, repl)`: left-to-right, non-overlapping; the code
only calls it with non-empty `pat`. -/
def pyReplace (pat repl : PyStr) : PyStr → PyStr
  | [] => []
  | c :: rest =>
    if h : pat ≠ [] ∧ pat.isPrefixOf (c :: rest) then
      repl ++ pyReplace pat repl ((c :: rest).drop pat.length)
    else c :: pyReplace pat repl rest
termination_by s => s.length
decreasing_by
  · have hp : 0 < pat.length := List.length_pos.mpr h.1
    simp only [List.length_drop, List.length_cons]
    omega
  · simp only [List.length_cons]; omega

/-- `re.sub(r'^(Image\s+\d+[:.]\s*)', '', desc, flags=re.IGNORECASE)`
(line 260): length of the removed prefix, when the anchored pattern matches
("Image" case-insensitively, whitespace, digits, `:` or `.`, then trailing
whitespace; all greedy steps are deterministic as the classes are disjoint). -/
def image_prefix_len (s : PyStr) : Option ℕ :=
  match s with
  | c1 :: c2 :: c3 :: c4 :: c5 :: rest =>
    if c1.toLower = 'i' ∧ c2.toLower = 'm' ∧ c3.toLower = 'a' ∧
        c4.toLower = 'g' ∧ c5.toLower = 'e' then
      let ws := rest.takeWhile isPySpace
      if ws.isEmpty then none
      else
        let rest2 := rest.drop ws.length
        let ds := rest2.takeWhile Char.isDigit
        if ds.isEmpty then none
        else
          match rest2.drop ds.length with
          | c :: rest3 =>
            if c = ':' ∨ c = '.' then
              some (5 + ws.length + ds.length + 1 + (rest3.takeWhile isPySpace).length)
            else none
          | [] => none
    else none
  | _ => none

/-- The per-description clean-up of `_process_image_batch` (lines 254-266):
strip `**` then `*`, drop a re-added "Image N:" prefix, capitalize the first
character. -/
def clean_description (desc : PyStr) : PyStr :=
  let d1 := pyReplace ['*', '*'] [] desc
  let d2 := pyReplace ['*'] [] d1
  let d3 :=
    match image_prefix_len d2 with
    | some n => d2.drop n
    | none => d2
  match d3 with
  | [] => []
  | c :: rest => c.toUpper :: rest

/-- `_process_image_batch` (lines 206-269) as observed through its response:
the single chat-completion call's reply text and the regex match lists on it
are parameters; the returned descriptions are the parsed ones, cleaned.
`none` models an exception escaping (the `expected = 0` fallback division). -/
def process_image_batch (regex_results : List (List (ℕ × PyStr)))
    (response : PyStr) (batchSize : ℕ) : Option (List PyStr) :=
  (parse_numbered_descriptions regex_results response batchSize).map
    fun ds => ds.map clean_description

/-- `MAX_BATCH_SIZE = 30` (line 183): the chunks `images[i:i+30]` of the
splitting loop (line 190). -/
def chunks_of_30 {α : Type} : List α → List (List α)
  | [] => []
  | c :: rest => ((c :: rest).take 30) :: chunks_of_30 ((c :: rest).drop 30)
termination_by l => l.length
decreasing_by simp only [List.length_drop, List.length_cons]; omega

/-- The sequential batch loop of `batch_generate_image_descriptions`
(lines 190-194): batch `j` consumes the `j`-th collaborator interaction
(`oracle j` = the regex match lists and response text of that batch's API
call, `none` when that call raises); any raise aborts the whole loop. -/
def run_batches {α : Type} (oracle : ℕ → Option (List (List (ℕ × PyStr)) × PyStr)) :
    ℕ → List (List α) → Option (List PyStr)
  | _, [] => some []
  | j, batch :: rest =>
    match oracle j with
    | none => none
    | some (rm, resp) =>
      match process_image_batch rm resp batch.length with
      | none => none
      | some ds =>
        match run_batches oracle (j + 1) rest with
        | none => none
        | some tail => some (ds ++ tail)

/-- `batch_generate_image_descriptions` (lines 176-204): more than 30 images
are split into chunks of 30 processed sequentially; otherwise one batch; the
surrounding `try/except` turns any exception into one error string per input
image (`errMsg` stands for the exception-derived text
`"[Image description error: ...]"`). -/
def batch_generate_image_descriptions {α : Type}
    (oracle : ℕ → Option (List (List (ℕ × PyStr)) × PyStr)) (errMsg : PyStr)
    (images : List α) : List PyStr :=
  if 30 < images.length then
    match run_batches oracle 0 (chunks_of_30 images) with
    | some ds => ds
    | none => List.replicate images.length errMsg
  else
    match oracle 0 with
    | none => List.replicate images.length errMsg
    | some (rm, resp) =>
      match process_image_batch rm resp images.length with
      | some ds => ds
      | none => List.replicate images.length errMsg

/-! ### Length invariants of the parsing chain -/

/-- The slot-filling loop never changes the number of slots. -/
theorem fillSlots_length (expected : ℕ) :
    ∀ (ms : List (ℕ × PyStr)) (slots slots' : List (Option PyStr)),
      fillSlots expected ms slots = some slots' → slots'.length = slots.length := by
  intro ms
  induction ms with
  | nil =>
    intro slots slots' h
    simp only [fillSlots] at h
    injection h with h'
    rw [h']
  | cons m rest ih =>
    intro slots slots' h
    obtain ⟨num, desc⟩ := m
    simp only [fillSlots] at h
    split at h
    · have := ih _ _ h
      simpa using this
    · exact Option.noConfusion h

/-- Strategy 1 returns, when it returns, one description per expected slot. -/
theorem strategy1_single_length {expected : ℕ} {ms : List (ℕ × PyStr)}
    {r : List PyStr} (h : strategy1_single expected ms = some r) :
    r.length = expected := by
  unfold strategy1_single at h
  by_cases hms : ms.isEmpty
  · rw [if_pos hms] at h; exact Option.noConfusion h
  · rw [if_neg hms] at h
    cases hfs : fillSlots expected ms (List.replicate expected none) with
    | none => rw [hfs] at h; exact Option.noConfusion h
    | some slots =>
      simp only [hfs] at h
      have hlen : slots.length = expected := by
        have := fillSlots_length expected ms _ _ hfs
        simpa using this
      by_cases hall : slots.all Option.isSome
      · rw [if_pos hall] at h
        injection h with h'
        rw [← h']
        simp [hlen]
      · rw [if_neg hall] at h; exact Option.noConfusion h

/-- Same over the whole pattern list. -/
theorem strategy1_length {expected : ℕ} :
    ∀ {rms : List (List (ℕ × PyStr))} {r : List PyStr},
      strategy1 expected rms = some r → r.length = expected := by
  intro rms
  induction rms with
  | nil => intro r h; simp [strategy1] at h
  | cons ms rest ih =>
    intro r h
    rw [strategy1] at h
    cases hs : strategy1_single expected ms with
    | some r1 =>
      rw [hs] at h
      injection h with h'
      rw [← h']
      exact strategy1_single_length hs
    | none =>
      rw [hs] at h
      exact ih h

/-- Strategy 2 succeeds only with exactly `expected` descriptions. -/
theorem strategy2_length {text : PyStr} {expected : ℕ} {r : List PyStr}
    (h : strategy2 text expected = some r) : r.length = expected := by
  simp only [strategy2] at h
  split at h
  · injection h with h'
    rw [← h']
    assumption
  · exact Option.noConfusion h

/-- Strategy 3 succeeds only with exactly `expected` descriptions. -/
theorem strategy3_length {text : PyStr} {expected : ℕ} {r : List PyStr}
    (h : strategy3 text expected = some r) : r.length = expected := by
  simp only [strategy3] at h
  split at h
  · injection h with h'
    rw [← h']
    assumption
  · exact Option.noConfusion h

/-- The final fallback, when it does not raise, returns exactly `expected`
chunks. -/
theorem even_split_length {text : PyStr} {expected : ℕ} {r : List PyStr}
    (h : even_split text expected = some r) : r.length = expected := by
  simp only [even_split] at h
  split at h
  · exact Option.noConfusion h
  · injection h with h'
    rw [← h']
    simp

/-- Whatever strategy fires, `_parse_numbered_descriptions` returns exactly
`expected` descriptions whenever it returns at all. -/
theorem parse_numbered_descriptions_length {rm : List (List (ℕ × PyStr))}
    {text : PyStr} {expected : ℕ} {r : List PyStr}
    (h : parse_numbered_descriptions rm text expected = some r) :
    r.length = expected := by
  rw [parse_numbered_descriptions] at h
  cases h1 : strategy1 expected rm with
  | some r1 =>
    rw [h1] at h
    injection h with h'
    rw [← h']
    exact strategy1_length h1
  | none =>
    rw [h1] at h
    cases h2 : strategy2 text expected with
    | some r2 =>
      rw [h2] at h
      injection h with h'
      rw [← h']
      exact strategy2_length h2
    | none =>
      rw [h2] at h
      cases h3 : strategy3 text expected with
      | some r3 =>
        rw [h3] at h
        injection h with h'
        rw [← h']
        exact strategy3_length h3
      | none =>
        rw [h3] at h
        exact even_split_length h

/-- Cleaning is a `map`, so `_process_image_batch` also returns one
description per image of its batch. -/
theorem process_image_batch_length {rm : List (List (ℕ × PyStr))}
    {resp : PyStr} {n : ℕ} {r : List PyStr}
    (h : process_image_batch rm resp n = some r) : r.length = n := by
  simp only [process_image_batch, Option.map_eq_some'] at h
  obtain ⟨ds, hds, h'⟩ := h
  rw [← h']
  simp [parse_numbered_descriptions_length hds]

/-- The sequential batch loop returns one description per image over all its
batches. -/
theorem run_batches_length {α : Type}
    (oracle : ℕ → Option (List (List (ℕ × PyStr)) × PyStr)) :
    ∀ (batches : List (List α)) (j : ℕ) (ds : List PyStr),
      run_batches oracle j batches = some ds →
      ds.length = (batches.map List.length).sum := by
  intro batches
  induction batches with
  | nil =>
    intro j ds h
    simp only [run_batches] at h
    injection h with h'
    rw [← h']
    simp
  | cons b rest ih =>
    intro j ds h
    rw [run_batches] at h
    cases ho : oracle j with
    | none => simp [ho] at h
    | some pr =>
      obtain ⟨rm, resp⟩ := pr
      simp only [ho] at h
      cases hp : process_image_batch rm resp b.length with
      | none => simp [hp] at h
      | some ds1 =>
        simp only [hp] at h
        cases hr : run_batches oracle (j + 1) rest with
        | none => simp [hr] at h
        | some tail =>
          simp only [hr] at h
          injection h with h'
          rw [← h']
          simp [process_image_batch_length hp, ih _ _ hr]

/-- The 30-chunks cover the input exactly. -/
theorem chunks_of_30_sum {α : Type} (l : List α) :
    ((chunks_of_30 l).map List.length).sum = l.length := by
  induction l using chunks_of_30.induct with
  | case1 => simp [chunks_of_30]
  | case2 c rest ih =>
    rw [chunks_of_30]
    simp only [List.map_cons, List.sum_cons, ih]
    simp only [List.length_take, List.length_drop, List.length_cons]
    omega

/-- C2: for every input list of images (any length, including 0, 1 and
lengths beyond one batch of 30), every sequence of collaborator behaviours -
arbitrary free-text responses, arbitrary regex match lists, raised
exceptions - and every error text, `batch_generate_image_descriptions`
returns exactly one description string per input image; the descriptions are
produced positionally (batch `j` covers inputs `30j..30j+29` in order, and
within a batch slot `i` holds the description numbered `i+1`), so callers may
zip input and output. -/
theorem batch_alignment (α : Type)
    (oracle : ℕ → Option (List (List (ℕ × PyStr)) × PyStr)) (errMsg : PyStr)
    (images : List α) :
    (batch_generate_image_descriptions oracle errMsg images).length =
      images.length := by
  rw [batch_generate_image_descriptions]
  split
  · cases hr : run_batches oracle 0 (chunks_of_30 images) with
    | some ds =>
      simp only [hr]
      rw [run_batches_length oracle _ _ _ hr, chunks_of_30_sum]
    | none => simp [hr]
  · cases ho : oracle 0 with
    | none => simp [ho]
    | some pr =>
      obtain ⟨rm, resp⟩ := pr
      cases hp : process_image_batch rm resp images.length with
      | some ds =>
        simp only [ho, hp]
        exact process_image_batch_length hp
      | none => simp [ho, hp]

/-! ### The final fallback of the parsing chain (C9) -/

/-- Concatenating the `c`-character slices `s[i*c:(i+1)*c]` for `i < m`
gives the first `m*c` characters of `s`. -/
theorem join_slices (s : List Char) (c : ℕ) :
    ∀ m, ((List.range m).map fun i => (s.drop (i * c)).take c).flatten
      = s.take (m * c) := by
  intro m
  induction m with
  | zero => simp
  | succ m ih =>
    rw [List.range_succ, List.map_append, List.flatten_append]
    simp only [List.map_cons, List.map_nil, List.flatten_cons, List.flatten_nil,
      List.append_nil]
    rw [ih, show (m + 1) * c = m * c + c by ring, List.take_add]

/-- C9 fails as stated: on the five-character response `abcde` with
`expected_count = 2` all three strategies fail and the final fallback
returns the two stripped slices `ab` and `cd` - their concatenation is
`abcd`, not the whole raw response text: the `total_chars mod N` trailing
characters are dropped (and `.strip()` can further unbalance the chunk
lengths). -/
theorem even_split_counterexample :
    parse_numbered_descriptions [[], [], []] ['a', 'b', 'c', 'd', 'e'] 2 =
      some [['a', 'b'], ['c', 'd']]
    ∧ [['a', 'b'], ['c', 'd']].flatten ≠ ['a', 'b', 'c', 'd', 'e'] := by
  have hs1 : strategy1 2 [[], [], []] = none := by decide
  have hs2 : strategy2 ['a', 'b', 'c', 'd', 'e'] 2 = none := by decide
  have hs3 : strategy3 ['a', 'b', 'c', 'd', 'e'] 2 = none := by
    simp [strategy3, blank_split_loop, blank_sep_match, pyStrip, isPySpace]
  constructor
  · rw [parse_numbered_descriptions, hs1, hs2, hs3]
    decide
  · decide

/-- C9 (amended): when the strict numbered-line match, the loose
numbered-paragraph split and the blank-line paragraph split all fail, the
final fallback (for `N ≥ 1`) returns the `N` stripped slices of length
`len/N` (floor) of the raw response text: before stripping the slices have
equal length `len/N` and their concatenation is the length-`N*(len/N)`
prefix of the raw text - the `len mod N` trailing characters are dropped,
and stripping may shorten individual chunks further. -/
theorem final_fallback_even_chunks (rm : List (List (ℕ × PyStr))) (text : PyStr)
    (n : ℕ) (hn : 0 < n) (h1 : strategy1 n rm = none)
    (h2 : strategy2 text n = none) (h3 : strategy3 text n = none) :
    parse_numbered_descriptions rm text n =
      some ((List.range n).map fun i =>
        pyStrip ((text.drop (i * (text.length / n))).take (text.length / n)))
    ∧ ((List.range n).map fun i =>
        (text.drop (i * (text.length / n))).take (text.length / n)).flatten
        = text.take (n * (text.length / n))
    ∧ ∀ i, i < n →
        ((text.drop (i * (text.length / n))).take (text.length / n)).length
          = text.length / n := by
  refine ⟨?_, join_slices text (text.length / n) n, ?_⟩
  · rw [parse_numbered_descriptions, h1, h2, h3, even_split,
      if_neg (Nat.pos_iff_ne_zero.mp hn)]
  · intro i hi
    have hle : i * (text.length / n) + text.length / n ≤ n * (text.length / n) := by
      have h' : (i + 1) * (text.length / n) ≤ n * (text.length / n) :=
        Nat.mul_le_mul_right _ hi
      rwa [Nat.succ_mul] at h'
    have hdiv : n * (text.length / n) ≤ text.length := by
      rw [Nat.mul_comm]
      exact Nat.div_mul_le_self text.length n
    simp only [List.length_take, List.length_drop]
    omega

/-- Witness for `final_fallback_even_chunks` on the response `abcde` with
two expected descriptions. -/
theorem final_fallback_even_chunks_witness :
    ((0 : ℕ) < 2
      ∧ strategy1 2 [[], [], []] = none
      ∧ strategy2 ['a', 'b', 'c', 'd', 'e'] 2 = none
      ∧ strategy3 ['a', 'b', 'c', 'd', 'e'] 2 = none)
    ∧ (parse_numbered_descriptions [[], [], []] ['a', 'b', 'c', 'd', 'e'] 2 =
        some ((List.range 2).map fun i =>
          pyStrip ((['a', 'b', 'c', 'd', 'e'].drop
            (i * (['a', 'b', 'c', 'd', 'e'].length / 2))).take
              (['a', 'b', 'c', 'd', 'e'].length / 2)))
      ∧ ((List.range 2).map fun i =>
          (['a', 'b', 'c', 'd', 'e'].drop
            (i * (['a', 'b', 'c', 'd', 'e'].length / 2))).take
              (['a', 'b', 'c', 'd', 'e'].length / 2)).flatten
          = ['a', 'b', 'c', 'd', 'e'].take
              (2 * (['a', 'b', 'c', 'd', 'e'].length / 2))
      ∧ ∀ i, i < 2 →
          ((['a', 'b', 'c', 'd', 'e'].drop
            (i * (['a', 'b', 'c', 'd', 'e'].length / 2))).take
              (['a', 'b', 'c', 'd', 'e'].length / 2)).length
            = ['a', 'b', 'c', 'd', 'e'].length / 2) := by
  have hs2 : strategy2 ['a', 'b', 'c', 'd', 'e'] 2 = none := by decide
  have hs3 : strategy3 ['a', 'b', 'c', 'd', 'e'] 2 = none := by
    simp [strategy3, blank_split_loop, blank_sep_match, pyStrip, isPySpace]
  exact ⟨⟨by decide, by decide, hs2, hs3⟩,
    final_fallback_even_chunks [[], [], []] ['a', 'b', 'c', 'd', 'e'] 2
      (by decide) (by decide) hs2 hs3⟩

/-! ## `openai_api.py`: `process_content` (lines 66-161)

Token-budget truncation, response parsing around the external `json.loads`,
and the tenacity retry decorator.
-/

/-- The marker appended on truncation (line 107). -/
def truncation_marker : PyStr := "...[Content truncated due to length]".data

/-- The token-budget policy (lines 99-107): `est_tokens = len(combined_text)
/ 4` - an exact float for any realistic length, modelled by the exact
rational - and when `est_tokens > 7000` the text is cut to its first 28000
characters and the marker is appended. -/
def apply_token_budget (combined_text : PyStr) : PyStr :=
  if (7000 : ℚ) < (combined_text.length : ℚ) / 4 then
    combined_text.take 28000 ++ truncation_marker
  else combined_text

/-- Python `content.find(c)`: first index, `-1` when absent. -/
def pyFind (c : Char) (s : PyStr) : ℤ :=
  match s.findIdx? (· = c) with
  | some i => (i : ℤ)
  | none => -1

/-- Python `content.rfind(c)`: last index, `-1` when absent. -/
def pyRFind (c : Char) (s : PyStr) : ℤ :=
  match s.reverse.findIdx? (· = c) with
  | some i => (s.length : ℤ) - 1 - (i : ℤ)
  | none => -1

/-- What `process_content` returns, as far as shape is concerned: a parsed
JSON value, the fixed parse-error dictionary of lines 153-158 (whose fields
are constants - it carries no part of the response), or the
`_handle_api_error` dictionary of lines 57-64 produced for any caught
exception. -/
inductive ProcResult (J : Type) where
  | parsed (v : J)
  | parseError
  | apiError
deriving DecidableEq, Repr

/-- The condition of line 142: a `{` exists and ends before the last `}`. -/
def has_brace_span (content : PyStr) : Bool :=
  decide (0 ≤ pyFind '{' content ∧ pyFind '{' content < pyRFind '}' content + 1)

/-- `content[json_start:json_end]` of line 143. -/
def brace_span (content : PyStr) : PyStr :=
  (content.take (pyRFind '}' content + 1).toNat).drop (pyFind '{' content).toNat

/-- The response parsing of `process_content` (lines 135-158), around the
external `json.loads` (`jloads`; `none` models `JSONDecodeError`).  As in the
code: compute `content.find('{')` and `content.rfind('}') + 1`; when the
brace span exists parse only that substring, otherwise parse the whole
response; a `JSONDecodeError` from either path is caught by the `except` at
line 150 and becomes the fixed parse-error dictionary. -/
def parse_analysis_response {J : Type} (jloads : PyStr → Option J)
    (content : PyStr) : ProcResult J :=
  if 0 ≤ pyFind '{' content ∧ pyFind '{' content < pyRFind '}' content + 1 then
    match jloads (brace_span content) with
    | some r => ProcResult.parsed r
    | none => ProcResult.parseError
  else
    match jloads content with
    | some r => ProcResult.parsed r
    | none => ProcResult.parseError

/-- The claim's result shape: its parse-error payload carries the leading
excerpt of the raw response. -/
inductive ClaimResult (J : Type) where
  | parsed (v : J)
  | parseError (excerpt : PyStr)
deriving DecidableEq, Repr

/-- Spec-side companion for C8, following the claim's words: first a direct
`json.loads` of the full response; only if that fails, the first-`{` /
last-`}` substring; if that also fails, a parse-error result carrying the
response's leading excerpt (`content[:500]`). -/
def claimed_parse_order {J : Type} (jloads : PyStr → Option J)
    (content : PyStr) : ClaimResult J :=
  match jloads content with
  | some r => ClaimResult.parsed r
  | none =>
    if has_brace_span content then
      match jloads (brace_span content) with
      | some r => ClaimResult.parsed r
      | none => ClaimResult.parseError (content.take 500)
    else ClaimResult.parseError (content.take 500)

/-- A two-point model of JSON values, enough to distinguish the empty object
from a string. -/
inductive JDemo where
  | obj
  | str (s : PyStr)
deriving DecidableEq, Repr

/-- `json.loads` restricted to the inputs exercised in the theorems below,
consistent with JSON: `{}` is the empty object, the quoted `"{}"` is the
two-character string, everything else raises `JSONDecodeError`. -/
def jloadsDemo (s : PyStr) : Option JDemo :=
  if s = ['{', '}'] then some JDemo.obj
  else if s = ['"', '{', '}', '"'] then some (JDemo.str ['{', '}'])
  else none

/-- A second `json.loads` model that also accepts the full text `x{a}`; it
agrees with `jloadsDemo` on the brace span `{a}`. -/
def jloadsDemo2 (s : PyStr) : Option JDemo :=
  if s = ['x', '{', 'a', '}'] then some JDemo.obj else jloadsDemo s

/-- C8 fails as stated: the code goes to the brace-substring parse FIRST and
direct-parses the full response only when no brace span exists; and its
parse-error dictionary is a constant, carrying no excerpt of the response.
On the four-character response `"{}"` (a quoted JSON string) the code parses
the inner substring `{}` to the empty object, while the claim's order would
direct-parse the whole response to the string `{}` - observably different
results.  And two failing responses with different leading excerpts produce
identical error results in the code, while the claim's error payloads
differ. -/
theorem parse_order_counterexample :
    parse_analysis_response jloadsDemo ['"', '{', '}', '"'] =
      ProcResult.parsed JDemo.obj
    ∧ claimed_parse_order jloadsDemo ['"', '{', '}', '"'] =
        ClaimResult.parsed (JDemo.str ['{', '}'])
    ∧ JDemo.obj ≠ JDemo.str ['{', '}']
    ∧ parse_analysis_response jloadsDemo ['x', '{', 'a', '}'] =
        parse_analysis_response jloadsDemo ['y', '{', 'b', '}']
    ∧ claimed_parse_order jloadsDemo ['x', '{', 'a', '}'] ≠
        claimed_parse_order jloadsDemo ['y', '{', 'b', '}'] := by
  refine ⟨?_, ?_, ?_, ?_, ?_⟩ <;> decide

/-- C8 (amended): the operation first locates the first `{` and the last `}`;
when that span exists it parses only that substring - the result depends on
`json.loads` only through its value on the span, so a direct parse of the
full response is never attempted - and only when no span exists does it parse
the full response text; a parse failure on either path yields the fixed
structured parse-error result, whose payload contains no excerpt of the raw
response (the excerpt is only logged). -/
theorem parse_order_brace_first {J : Type} (jloads jloads' : PyStr → Option J)
    (content : PyStr) :
    (has_brace_span content = true →
      jloads (brace_span content) = jloads' (brace_span content) →
      parse_analysis_response jloads content =
        parse_analysis_response jloads' content)
    ∧ (has_brace_span content = false →
        parse_analysis_response jloads content =
          match jloads content with
          | some r => ProcResult.parsed r
          | none => ProcResult.parseError)
    ∧ ∀ c1 c2 : PyStr,
        parse_analysis_response jloads c1 = ProcResult.parseError →
        parse_analysis_response jloads c2 = ProcResult.parseError →
        parse_analysis_response jloads c1 = parse_analysis_response jloads c2 := by
  refine ⟨?_, ?_, ?_⟩
  · intro hb hag
    have hc : 0 ≤ pyFind '{' content ∧
        pyFind '{' content < pyRFind '}' content + 1 := by
      simpa [has_brace_span] using hb
    rw [parse_analysis_response, parse_analysis_response, if_pos hc, if_pos hc, hag]
  · intro hb
    have hc : ¬ (0 ≤ pyFind '{' content ∧
        pyFind '{' content < pyRFind '}' content + 1) := by
      simpa [has_brace_span] using hb
    rw [parse_analysis_response, if_neg hc]
  · intro c1 c2 h1 h2
    rw [h1, h2]

/-- Witness for `parse_order_brace_first`: on the response `x{a}` the span is
`{a}`; swapping `json.loads` for one that additionally accepts the full text
`x{a}` does not change the result, so the full text is never parsed. -/
theorem parse_order_brace_first_witness :
    (has_brace_span ['x', '{', 'a', '}'] = true
      ∧ jloadsDemo (brace_span ['x', '{', 'a', '}']) =
          jloadsDemo2 (brace_span ['x', '{', 'a', '}']))
    ∧ parse_analysis_response jloadsDemo ['x', '{', 'a', '}'] =
        parse_analysis_response jloadsDemo2 ['x', '{', 'a', '}'] :=
  ⟨⟨by decide, by decide⟩,
   (parse_order_brace_first jloadsDemo jloadsDemo2 ['x', '{', 'a', '}']).1
     (by decide) (by decide)⟩

/-- C4: whenever the estimated token size `len/4` exceeds the 7000-token
ceiling, the combined text is truncated from the tail to exactly its first
28000 characters with the truncation marker appended, so the output length is
exactly `28000 + truncation_marker.length`; the policy is a pure function of
the combined text, so identical input yields byte-identical output. -/
theorem truncation_exact (s : PyStr) (h : (7000 : ℚ) < (s.length : ℚ) / 4) :
    apply_token_budget s = s.take 28000 ++ truncation_marker
    ∧ (apply_token_budget s).length = 28000 + truncation_marker.length := by
  have hlen : 28000 < s.length := by
    rw [lt_div_iff₀ (by norm_num : (0 : ℚ) < 4)] at h
    norm_num at h
    exact_mod_cast h
  rw [apply_token_budget, if_pos h]
  refine ⟨rfl, ?_⟩
  simp only [List.length_append, List.length_take]
  omega

/-- Witness for `truncation_exact` on the spec's 50000-character scenario. -/
theorem truncation_exact_witness :
    ((7000 : ℚ) < ((List.replicate 50000 'a' : PyStr).length : ℚ) / 4)
    ∧ (apply_token_budget (List.replicate 50000 'a')).length =
        28000 + truncation_marker.length :=
  ⟨by rw [List.length_replicate]; norm_num,
   (truncation_exact (List.replicate 50000 'a')
     (by rw [List.length_replicate]; norm_num)).2⟩

/-! ### The retry decorator (C3) -/

/-- What the external chat-completion call does on one attempt: return a
response text, raise one of the two transient exception types
(`openai.RateLimitError`, `openai.APITimeoutError`), or raise anything
else. -/
inductive ApiOutcome (α : Type) where
  | ok (payload : α)
  | transient
  | fatal
deriving DecidableEq, Repr

/-- Exceptions as classified by the decorator's
`retry_if_exception_type((RateLimitError, APITimeoutError))`. -/
inductive PyExc where
  | transientExc
  | otherExc
deriving DecidableEq, Repr

/-- `tenacity.retry(retry=retry_if_exception_type(...),
stop=stop_after_attempt(3), wait=wait_fixed(2))` (lines 66-70): call the
wrapped function (`f n` is its behaviour on 0-based attempt `n`); a normal
return is final; a raised transient exception is retried while fewer than
`maxAttempts` calls have been made, then propagates (tenacity wraps the last
exception in `RetryError`; the wrapping is immaterial to the claim); any
other exception propagates at once.  Waiting affects only timing. -/
def tenacity_loop {α : Type} (maxAttempts : ℕ) (f : ℕ → Except PyExc α)
    (n : ℕ) : Except PyExc α :=
  match f n with
  | Except.ok a => Except.ok a
  | Except.error PyExc.transientExc =>
    if n + 1 < maxAttempts then tenacity_loop maxAttempts f (n + 1)
    else Except.error PyExc.transientExc
  | Except.error PyExc.otherExc => Except.error PyExc.otherExc
termination_by maxAttempts - n

/-- The decorator applied to a callable. -/
def tenacity_retry {α : Type} (maxAttempts : ℕ) (f : ℕ → Except PyExc α) :
    Except PyExc α :=
  tenacity_loop maxAttempts f 0

/-- One execution of the body of `process_content` (lines 79-161): the
external API call behaves as `outcome`; the body's `try/except Exception`
(lines 79 and 160-161) catches every exception - the transient ones included
- and converts it into the `_handle_api_error` dictionary, a NORMAL return;
a returned response is parsed per `parse_analysis_response`.  The body never
raises. -/
def process_content_body {J : Type} (jloads : PyStr → Option J)
    (outcome : ApiOutcome PyStr) : ProcResult J :=
  match outcome with
  | ApiOutcome.ok content => parse_analysis_response jloads content
  | ApiOutcome.transient => ProcResult.apiError
  | ApiOutcome.fatal => ProcResult.apiError

/-- `process_content` as decorated: tenacity re-invokes the body only when
the body raises. -/
def process_content_retrying {J : Type} (jloads : PyStr → Option J)
    (trace : ℕ → ApiOutcome PyStr) : Except PyExc (ProcResult J) :=
  tenacity_retry 3 fun n => Except.ok (process_content_body jloads (trace n))

/-- Spec-side companion for C3: the retry discipline the claim (and the
decorator's own configuration) describes - the transient exceptions reach the
decorator and are retried up to `stop_after_attempt(3)`. -/
def claimed_retry_behaviour {J : Type} (jloads : PyStr → Option J)
    (trace : ℕ → ApiOutcome PyStr) : Except PyExc (ProcResult J) :=
  tenacity_retry 3 fun n =>
    match trace n with
    | ApiOutcome.ok content => Except.ok (parse_analysis_response jloads content)
    | ApiOutcome.transient => Except.error PyExc.transientExc
    | ApiOutcome.fatal => Except.error PyExc.otherExc

/-- A trace that is rate-limited on the first attempt and would succeed with
the parseable response `{}` from the second attempt on. -/
def c3_trace : ℕ → ApiOutcome PyStr :=
  fun n => if n = 0 then ApiOutcome.transient else ApiOutcome.ok ['{', '}']

/-- C3 fails on the code (code bug): the catch-all `except Exception` inside
`process_content` swallows `RateLimitError`/`APITimeoutError` and returns the
`_handle_api_error` dictionary normally, so the tenacity decorator - whose
configuration documents the intent to retry exactly those exceptions - never
observes an exception and never retries: the decorated call always returns
the outcome of attempt 0.  On a trace with one transient failure then
success, the code returns the structured API error after a single attempt,
while the configured retry discipline would return the parsed success. -/
theorem retry_never_fires :
    (∀ (J : Type) (jloads : PyStr → Option J) (trace : ℕ → ApiOutcome PyStr),
      process_content_retrying jloads trace =
        Except.ok (process_content_body jloads (trace 0)))
    ∧ process_content_retrying jloadsDemo c3_trace = Except.ok ProcResult.apiError
    ∧ claimed_retry_behaviour jloadsDemo c3_trace =
        Except.ok (ProcResult.parsed JDemo.obj) := by
  have hnever : ∀ (J : Type) (jloads : PyStr → Option J)
      (trace : ℕ → ApiOutcome PyStr),
      process_content_retrying jloads trace =
        Except.ok (process_content_body jloads (trace 0)) := by
    intro J jloads trace
    rw [process_content_retrying, tenacity_retry, tenacity_loop]
  refine ⟨hnever, ?_, ?_⟩
  · rw [hnever]
    simp [c3_trace, process_content_body]
  · rw [claimed_retry_behaviour, tenacity_retry, tenacity_loop]
    simp only [c3_trace, if_pos rfl]
    rw [if_pos (by norm_num), tenacity_loop]
    norm_num
    simp [parse_analysis_response, pyFind, pyRFind, brace_span, jloadsDemo]

/-! ## `ocr.py`: `OCRProcessor._add_image_descriptions` (lines 73-124) -/

/-- One entry of the OCR result list as `_add_image_descriptions` sees it:
`image_data` is the base64 data URL built in `process_images` (the empty
string when building it failed), `image_description` the field this pass
fills in. -/
structure OcrImage where
  filename : ℕ
  image_data : PyStr
  image_description : PyStr
deriving DecidableEq, Repr

/-- The placeholder of line 87. -/
def skipped_placeholder : PyStr :=
  "[Image description skipped - too many images]".data

/-- One image's trip through the description loop (lines 97-119): an image
with empty `image_data` is skipped (`continue`), keeping its description;
otherwise the external `generate_image_description` call is made (`describe`;
`none` models a raised exception, which the `except` at lines 117-119 turns
into the error description `errDesc`, standing for the exception-derived
`"[Description error: ...]"`).  Also returns the list of payloads submitted
to the external call. -/
def describe_one (describe : PyStr → Option PyStr) (errDesc : PyStr)
    (img : OcrImage) : OcrImage × List PyStr :=
  if img.image_data.isEmpty then (img, [])
  else
    match describe img.image_data with
    | some d => ({ img with image_description := d }, [img.image_data])
    | none => ({ img with image_description := errDesc }, [img.image_data])

/-- Whatever the call does, only the image's own payload is ever submitted. -/
theorem describe_one_snd (describe : PyStr → Option PyStr) (errDesc : PyStr)
    (img : OcrImage) :
    ∀ d ∈ (describe_one describe errDesc img).2, d = img.image_data := by
  intro d hd
  rw [describe_one] at hd
  split at hd
  · simp at hd
  · split at hd <;> simpa using hd

/-- `_add_image_descriptions` (lines 73-124): with more than 30 images the
marking loop (lines 85-88) overwrites `image_description` with the skip
placeholder for every index `i >= 20` and only `images[:20]` goes on to
description generation; with at most 30 images, all of them do.  The grouping
of `images_to_process` into batches of 5 and the inter-item and inter-batch
sleeps (lines 93-124) affect only timing, never a per-image outcome, and are
not represented.  Returns the updated list together with all payloads
submitted to the external description call. -/
def add_image_descriptions (describe : PyStr → Option PyStr) (errDesc : PyStr)
    (images : List OcrImage) : List OcrImage × List PyStr :=
  if 30 < images.length then
    ((((images.take 20).map (describe_one describe errDesc)).map Prod.fst ++
        (images.drop 20).map fun img =>
          { img with image_description := skipped_placeholder }),
     (((images.take 20).map (describe_one describe errDesc)).map Prod.snd).flatten)
  else
    ((images.map (describe_one describe errDesc)).map Prod.fst,
     ((images.map (describe_one describe errDesc)).map Prod.snd).flatten)

/-- C10: when the input list holds more than 30 images, the output list keeps
its length, every image at index 20 or beyond carries the fixed skip
placeholder, and every payload submitted to the external description call
belongs to one of the first 20 images - no description call is issued for
any image at index 20 or beyond. -/
theorem skip_descriptions_beyond_20 (describe : PyStr → Option PyStr)
    (errDesc : PyStr) (images : List OcrImage) (h : 30 < images.length) :
    (add_image_descriptions describe errDesc images).1.length = images.length
    ∧ (∀ img ∈ (add_image_descriptions describe errDesc images).1.drop 20,
        img.image_description = skipped_placeholder)
    ∧ ∀ d ∈ (add_image_descriptions describe errDesc images).2,
        ∃ img ∈ images.take 20, d = img.image_data := by
  have h20 : ((images.take 20).map (describe_one describe errDesc)).length = 20 := by
    simp only [List.length_map, List.length_take]
    omega
  rw [add_image_descriptions, if_pos h]
  refine ⟨?_, ?_, ?_⟩
  · simp only [List.length_append, List.length_map, List.length_take,
      List.length_drop]
    omega
  · intro img himg
    have hdrop : ∀ (A B : List OcrImage), A.length = 20 → (A ++ B).drop 20 = B := by
      intro A B hA
      rw [← hA, List.drop_left]
    rw [hdrop _ _ (by simp only [List.length_map, List.length_take]; omega)] at himg
    obtain ⟨img0, _, himg0⟩ := List.mem_map.mp himg
    rw [← himg0]
  · intro d hd
    rw [List.mem_flatten] at hd
    obtain ⟨calls, hcalls, hdc⟩ := hd
    obtain ⟨pair, hpair, hpc⟩ := List.mem_map.mp hcalls
    obtain ⟨img, himg, hpd⟩ := List.mem_map.mp hpair
    refine ⟨img, himg, ?_⟩
    apply describe_one_snd describe errDesc img
    rw [hpd, hpc]
    exact hdc

/-- Thirty-one images with non-empty payloads, for the witness. -/
def ocr_demo_images : List OcrImage := List.replicate 31 ⟨0, ['x'], []⟩

/-- Witness for `skip_descriptions_beyond_20` at 31 images and an external
call that always raises. -/
theorem skip_descriptions_beyond_20_witness :
    30 < ocr_demo_images.length
    ∧ ((add_image_descriptions (fun _ => none) [] ocr_demo_images).1.length =
        ocr_demo_images.length
      ∧ (∀ img ∈ (add_image_descriptions (fun _ => none) []
            ocr_demo_images).1.drop 20,
          img.image_description = skipped_placeholder)
      ∧ ∀ d ∈ (add_image_descriptions (fun _ => none) [] ocr_demo_images).2,
          ∃ img ∈ ocr_demo_images.take 20, d = img.image_data) :=
  ⟨by decide,
   skip_descriptions_beyond_20 (fun _ => none) [] ocr_demo_images (by decide)⟩

end InsideIdeo
